import Mathlib

set_option maxRecDepth 8000

/-
Verification development for the TOC-generator repository.

The Python sources (main_extractor.py, merge_utils.py, app.py) are shallowly
embedded below.  Text is modelled as `List Char`; the bidder association
(a Python insertion-ordered dict of lists) is modelled as an association
list `Assoc`.  Regular-expression operations from the source are embedded
as executable functions reproducing Python re semantics (leftmost match,
greedy with backtracking) for the concrete patterns that appear in the code.
-/

/-- Python whitespace class for str.strip, str.split and the regex \s
(ASCII part: space, tab, newline, carriage return, vertical tab, form feed). -/
def isSpaceChar (c : Char) : Bool :=
  c = ' ' || c = '\t' || c = '\n' || c = '\r' || c = Char.ofNat 11 || c = Char.ofNat 12

def isUpperAZ (c : Char) : Bool := 'A' ≤ c && c ≤ 'Z'

def isDigitChar (c : Char) : Bool := '0' ≤ c && c ≤ '9'

def isAlphaChar (c : Char) : Bool := ('a' ≤ c && c ≤ 'z') || ('A' ≤ c && c ≤ 'Z')

/-- Lowercasing, as Python str.lower on ASCII text. -/
def lowerL (cs : List Char) : List Char := cs.map Char.toLower

def dropLeadWs : List Char → List Char
  | [] => []
  | c :: rest => if isSpaceChar c then dropLeadWs rest else c :: rest

/-- Python str.strip(): remove leading and trailing whitespace. -/
def strip (cs : List Char) : List Char :=
  ((dropLeadWs cs.reverse).reverse) |> dropLeadWs

/-- Python str.split('\n'): split into lines, keeping empty segments. -/
def splitNl : List Char → List (List Char)
  | [] => [[]]
  | c :: rest =>
    if c = '\n' then [] :: splitNl rest
    else
      match splitNl rest with
      | s :: ss => (c :: s) :: ss
      | [] => [[c]]

def listStartsWith : List Char → List Char → Bool
  | [], _ => true
  | _ :: _, [] => false
  | n :: ns, h :: hs => decide (n = h) && listStartsWith ns hs

/-- Python substring containment: needle in hay. -/
def containsSub (needle : List Char) : List Char → Bool
  | [] => needle.isEmpty
  | c :: rest => listStartsWith needle (c :: rest) || containsSub needle rest

def containsEq (x : List Char) : List (List Char) → Bool
  | [] => false
  | y :: ys => if y = x then true else containsEq x ys

def countEq (x : List Char) : List (List Char) → Nat
  | [] => 0
  | y :: ys => (if y = x then 1 else 0) + countEq x ys

/-- Suffix test: cs ends with suf. -/
def endsWith (suf cs : List Char) : Bool := listStartsWith suf.reverse cs.reverse

/-- Python str.split() with no arguments: split on whitespace runs, dropping
empty pieces.  Accumulator holds the current token reversed. -/
def splitWsGo : List Char → List Char → List (List Char)
  | cur, [] => if cur.isEmpty then [] else [cur.reverse]
  | cur, c :: rest =>
    if isSpaceChar c then
      if cur.isEmpty then splitWsGo [] rest else cur.reverse :: splitWsGo [] rest
    else splitWsGo (c :: cur) rest

def splitWs (cs : List Char) : List (List Char) := splitWsGo [] cs

/-- Python ' '.join. -/
def joinSpace : List (List Char) → List Char
  | [] => []
  | [x] => x
  | x :: y :: rest => x ++ ' ' :: joinSpace (y :: rest)

/-! ## Regex embeddings (main_extractor.py) -/

/-- Regex r'^[A-Z][A-Z\s]+-[A-Z]+$' (main_extractor.py lines 92 and 149).
After the leading [A-Z], the class [A-Z\s]+ cannot contain the hyphen, so the
match is deterministic: consume class characters (at least one), then require
a hyphen followed by a nonempty all-uppercase tail reaching the end. -/
def allUpperNonempty (cs : List Char) : Bool := !cs.isEmpty && cs.all isUpperAZ

def matchP1Tail : Bool → List Char → Bool
  | _, [] => false
  | seen, c :: rest =>
    if isUpperAZ c || isSpaceChar c then matchP1Tail true rest
    else decide (c = '-') && seen && allUpperNonempty rest

def matchP1 : List Char → Bool
  | [] => false
  | c :: rest => isUpperAZ c && matchP1Tail false rest

/-- Character class [A-Z\s&\.] of the LIMITED/PAINTS patterns. -/
def classAZSp (c : Char) : Bool := isUpperAZ c || isSpaceChar c || c = '&' || c = '.'

def classRunLen : List Char → Nat
  | [] => 0
  | c :: rest => if classAZSp c then classRunLen rest + 1 else 0

def azRunLen : List Char → Nat
  | [] => 0
  | c :: rest => if isUpperAZ c then azRunLen rest + 1 else 0

def sepPaints : List Char := " PAINTS-".toList
def sepLimited : List Char := " LIMITED-".toList

/-- Regex r'^[A-Z][A-Z\s&\.]+ SEP[A-Z]+$' for SEP in {LIMITED-, PAINTS-}
(main_extractor.py lines 93-94).  Backtracking over the greedy class run:
try the longest class prefix first, then shorter ones. -/
def p2TryJ (sep rest : List Char) : Nat → Bool
  | 0 => false
  | j + 1 =>
    (listStartsWith sep (rest.drop (j + 1)) &&
      allUpperNonempty ((rest.drop (j + 1)).drop sep.length))
    || p2TryJ sep rest j

def matchP2 (sep : List Char) : List Char → Bool
  | [] => false
  | c :: rest => isUpperAZ c && p2TryJ sep rest (classRunLen rest)

/-- The bidder-header test of main_extractor.py lines 92-94. -/
def isBidderHeader (line : List Char) : Bool :=
  matchP1 line || matchP2 sepLimited line || matchP2 sepPaints line

/-- Regex r'^\d+\s+' (main_extractor.py line 114): digits then at least one
whitespace character, anchored at the start. -/
def afterDigits : List Char → Bool
  | [] => false
  | c :: rest => if isDigitChar c then afterDigits rest else isSpaceChar c

def digitsThenSpace : List Char → Bool
  | [] => false
  | c :: rest => isDigitChar c && afterDigits rest

/-- Does the list start with ".pdf", case-insensitively? -/
def dotPdfAt (cs : List Char) : Bool := decide (lowerL (cs.take 4) = ".pdf".toList)

def nonSpaceRunLen : List Char → Nat
  | [] => 0
  | c :: rest => if isSpaceChar c then 0 else nonSpaceRunLen rest + 1

/-- Greedy backtracking for r'(\S+\.pdf)' at a fixed start: \S+ takes the
longest possible run first, then backs off until ".pdf" follows. -/
def pdfBestK (cs : List Char) : Nat → Option Nat
  | 0 => none
  | k + 1 => if dotPdfAt (cs.drop (k + 1)) then some (k + 1) else pdfBestK cs k

def pdfMatchHere (cs : List Char) : Option (List Char) :=
  match pdfBestK cs (nonSpaceRunLen cs) with
  | some k => some (cs.take (k + 4))
  | none => none

/-- re.search(r'(\S+\.pdf)', line, re.IGNORECASE): leftmost start wins,
greedy within a start (main_extractor.py lines 140 and 189). -/
def pdfSearch : List Char → Option (List Char)
  | [] => none
  | c :: rest =>
    match pdfMatchHere (c :: rest) with
    | some m => some m
    | none => pdfSearch rest

/-- One attempt of r'[A-Z][A-Z\s&\.]+ (?:PAINTS|LIMITED)-[A-Z]+' at a fixed
class-run length j: the literal separator must follow, then a nonempty
uppercase tail (greedy).  Returns the total match length. -/
def bidderAttempt (rest : List Char) (j : Nat) : Option Nat :=
  let after := rest.drop j
  if listStartsWith sepPaints after then
    let t := azRunLen (after.drop sepPaints.length)
    if t = 0 then none else some (1 + j + sepPaints.length + t)
  else if listStartsWith sepLimited after then
    let t := azRunLen (after.drop sepLimited.length)
    if t = 0 then none else some (1 + j + sepLimited.length + t)
  else none

def bidderTryJ (rest : List Char) : Nat → Option Nat
  | 0 => none
  | j + 1 =>
    match bidderAttempt rest (j + 1) with
    | some n => some n
    | none => bidderTryJ rest j

/-- Match of the bidder pattern anchored at the head of cs; returns the
match length (at least 1 when present). -/
def bidderMatchHere : List Char → Option Nat
  | [] => none
  | c :: rest => if isUpperAZ c then bidderTryJ rest (classRunLen rest) else none

/-- re.findall of the bidder pattern (main_extractor.py line 169): scan left
to right, non-overlapping, resuming after each match.  Fuel is the list
length, which suffices since every step consumes at least one character. -/
def bidderFindAllGo : Nat → List Char → List (List Char)
  | 0, _ => []
  | _ + 1, [] => []
  | fuel + 1, c :: rest =>
    match bidderMatchHere (c :: rest) with
    | some len => (c :: rest).take len :: bidderFindAllGo fuel ((c :: rest).drop len)
    | none => bidderFindAllGo fuel rest

def bidderFindAll (cs : List Char) : List (List Char) := bidderFindAllGo cs.length cs

/-! ## The bidder association (a Python dict of lists, insertion-ordered) -/

abbrev Assoc := List (List Char × List (List Char))

def lookupA : Assoc → List Char → Option (List (List Char))
  | [], _ => none
  | (k, v) :: rest, b => if k = b then some v else lookupA rest b

/-- self.bidder_documents[b] on a defaultdict(list): the stored list, or []. -/
def docsOf (acc : Assoc) (b : List Char) : List (List Char) := (lookupA acc b).getD []

/-- self.bidder_documents[b].append(fn): append to the bidder's list,
creating the key at the end of the dict when absent. -/
def appendDoc : Assoc → List Char → List Char → Assoc
  | [], b, fn => [(b, [fn])]
  | (k, v) :: rest, b, fn =>
    if k = b then (k, v ++ [fn]) :: rest else (k, v) :: appendDoc rest b fn

/-- fn in self.bidder_documents[b]. -/
def memDoc (acc : Assoc) (b fn : List Char) : Bool := containsEq fn (docsOf acc b)

/-! ## parse_bidder_documents (main_extractor.py lines 61-152) -/

/-- Validity test of main_extractor.py lines 121-123: contains a dot and the
lowercase form ends with .pdf, .doc or .docx. -/
def validDoc (fn : List Char) : Bool :=
  (fn.any fun c => decide (c = '.')) &&
    (endsWith ".pdf".toList (lowerL fn) || endsWith ".doc".toList (lowerL fn) ||
      endsWith ".docx".toList (lowerL fn))

/-- The reconstruction loop of lines 129-136: for j in range(2, len(parts)),
join parts[1:j+1] with spaces and take the first valid candidate.
tail is parts[1:]; k is the current prefix size; fuel counts iterations. -/
def tryReconGo (tail : List (List Char)) : Nat → Nat → Option (List Char)
  | _, 0 => none
  | k, fuel + 1 =>
    let pot := joinSpace (tail.take k)
    if validDoc pot then some pot else tryReconGo tail (k + 1) fuel

def tryRecon (tail : List (List Char)) : Option (List Char) :=
  tryReconGo tail 2 (tail.length - 1)

/-- The numbered-table-row branch, lines 114-136: parts are the whitespace
tokens of the line; take parts[1] if valid, otherwise the first valid
reconstruction.  Appends without any membership test. -/
def rowProcess (acc : Assoc) (b : List Char) : List (List Char) → Assoc
  | _ :: p1 :: rest2 =>
    if validDoc p1 then appendDoc acc b p1
    else
      match tryRecon (p1 :: rest2) with
      | some pot => appendDoc acc b pot
      | none => acc
  | _ => acc

/-- 'File Name' in line or 'S.' in line (line 101, case-sensitive). -/
def tableHeaderCue (line : List Char) : Bool :=
  containsSub "File Name".toList line || containsSub "S.".toList line

/-- The look-ahead of lines 103-105: there is a next raw line whose stripped
form contains 'No.' or whose lowercase form contains context, description
or placed. -/
def headerNext : List (List Char) → Bool
  | [] => false
  | nl0 :: _ =>
    let nl := strip nl0
    containsSub "No.".toList nl || containsSub "context".toList (lowerL nl) ||
      containsSub "description".toList (lowerL nl) ||
      containsSub "placed".toList (lowerL nl)

/-- One iteration of the scan of lines 83-150, producing the next
(current_bidder, in_table_section, association) state.  rest is the list of
raw lines after the current one (used only for the header look-ahead). -/
def parseStep (curB : Option (List Char)) (inTab : Bool) (acc : Assoc)
    (l0 : List Char) (rest : List (List Char)) :
    Option (List Char) × Bool × Assoc :=
  let line := strip l0
  if line.isEmpty then (curB, inTab, acc)
  else if isBidderHeader line then (some line, false, acc)
  else if curB.isSome && tableHeaderCue line && headerNext rest then (curB, true, acc)
  else
    match curB with
    | none => (curB, inTab, acc)
    | some b =>
      if inTab then
        if digitsThenSpace line then (curB, inTab, rowProcess acc b (splitWs line))
        else
          (match pdfSearch line with
           | some fn => (curB, inTab, if memDoc acc b fn then acc else appendDoc acc b fn)
           | none => if matchP1 line then (curB, false, acc) else (curB, inTab, acc))
      else (curB, inTab, acc)

def parseLoop : Option (List Char) → Bool → Assoc → List (List Char) → Assoc
  | _, _, acc, [] => acc
  | curB, inTab, acc, l0 :: rest =>
    let s := parseStep curB inTab acc l0 rest
    parseLoop s.1 s.2.1 s.2.2 rest

/-- parse_bidder_documents: scans the lines of raw, accumulating into the
instance's existing mapping init (self.bidder_documents is a member that the
method never clears; a fresh extractor has init = []). -/
def parse_bidder_documents (init : Assoc) (raw : List Char) : Assoc :=
  parseLoop none false init (splitNl raw)

/-! ## parse_bidder_documents_alternative (lines 154-194) -/

/-- First recognized bidder string contained in the line (lines 182-185). -/
def findBidder (bidders : List (List Char)) (line : List Char) : Option (List Char) :=
  bidders.find? fun b => containsSub b line

def altLoop (bidders : List (List Char)) :
    Option (List Char) → Assoc → List (List Char) → Assoc
  | _, acc, [] => acc
  | curB, acc, l0 :: rest =>
    let line := strip l0
    let curB2 := match findBidder bidders line with
      | some b => some b
      | none => curB
    match curB2 with
    | some b =>
      (match pdfSearch line with
       | some fn => altLoop bidders (some b) (appendDoc acc b fn) rest
       | none => altLoop bidders (some b) acc rest)
    | none => altLoop bidders none acc rest

def parse_bidder_documents_alternative (raw : List Char) : Assoc :=
  altLoop (bidderFindAll raw) none [] (splitNl raw)

/-! ## get_documents_for_bidder (lines 196-224) -/

/-- The lookup of lines 215-224: exact key match, then first case-insensitive
substring match in insertion order, else the empty list. -/
def resolveDocs (acc : Assoc) (name : List Char) : List (List Char) :=
  match lookupA acc name with
  | some ds => ds
  | none =>
    match acc.find? (fun kv => containsSub (lowerL name) (lowerL kv.1)) with
    | some kv => kv.2
    | none => []

/-- get_documents_for_bidder on a fresh extractor (as app.py line 34-35 uses
it): run the primary parse; if its association is empty, silently re-parse
with the alternative method; then resolve the name. -/
def get_documents_for_bidder (raw : List Char) (name : List Char) : List (List Char) :=
  let bd := parse_bidder_documents [] raw
  let bd2 := if bd.isEmpty then parse_bidder_documents_alternative raw else bd
  resolveDocs bd2 name

/-! ## merge_utils.py -/

/-- Display-name cleanup of merge_utils.py line 33:
filename.replace('.pdf', '').replace('_', ' ').title().
Python str.replace removes every (case-sensitive) occurrence, scanning left
to right. -/
def replaceDotPdf : List Char → List Char
  | [] => []
  | '.' :: 'p' :: 'd' :: 'f' :: rest => replaceDotPdf rest
  | c :: rest => c :: replaceDotPdf rest

/-- Python str.title(): a letter is uppercased when the previous character is
not a letter, lowercased otherwise. -/
def titleCaseGo : Bool → List Char → List Char
  | _, [] => []
  | prevAlpha, c :: rest =>
    (if isAlphaChar c then (if prevAlpha then Char.toLower c else Char.toUpper c) else c)
      :: titleCaseGo (isAlphaChar c) rest

def display_of (fn : List Char) : List Char :=
  titleCaseGo false ((replaceDotPdf fn).map fun c => if c = '_' then ' ' else c)

structure PdfEntry where
  filename : List Char
  display_name : List Char
  page_count : Nat
  start_page : Int
  end_page : Int
deriving DecidableEq

/-- The loop of get_pdf_info (merge_utils.py lines 24-52).  The file system
and pypdf reader are abstracted into read, giving the page count of a file
or none when PdfReader raises; a failed file is skipped and contributes
nothing.  counter is page_counter. -/
def get_pdf_info_go (read : List Char → Option Nat) : Int → List (List Char) → List PdfEntry
  | _, [] => []
  | counter, f :: rest =>
    match read f with
    | none => get_pdf_info_go read counter rest
    | some pc =>
      { filename := f, display_name := display_of f, page_count := pc,
        start_page := counter, end_page := counter + pc - 1 }
        :: get_pdf_info_go read (counter + pc) rest

/-- get_pdf_info (merge_utils.py lines 18-54): page_counter starts at 1. -/
def get_pdf_info (read : List Char → Option Nat) (files : List (List Char)) : List PdfEntry :=
  get_pdf_info_go read 1 files

/-- merge_all_pdfs (merge_utils.py lines 128-151): concatenate the pages of
each file in order, skipping files that fail to read.  readDoc abstracts the
folder plus PdfReader, yielding the page stream of a file. -/
def merge_all_pdfs {α : Type} (readDoc : List Char → Option (List α)) :
    List (List Char) → List α
  | [] => []
  | f :: rest =>
    (match readDoc f with
     | some ps => ps
     | none => []) ++ merge_all_pdfs readDoc rest

/-- combine_toc_and_merged (merge_utils.py lines 153-176), at page-stream
level: every TOC page, then every merged-content page. -/
def combine_toc_and_merged {α : Type} (toc merged : List α) : List α := toc ++ merged

/-- The recursive page-contiguity requirement on a merge plan, with n the
expected start page of the first entry. -/
def contiguousFromB : Int → List PdfEntry → Bool
  | _, [] => true
  | n, e :: rest =>
    decide (e.start_page = n) && decide (e.end_page = e.start_page + (e.page_count : Int) - 1)
      && contiguousFromB (e.end_page + 1) rest

/-! ## app.py process handler -/

def pdf00 : List Char := "00.pdf".toList

/-- app.py lines 36-41: the matched documents with "00.pdf" inserted in
front; passed to get_pdf_info (line 79). -/
def bidder_file_name (matched : List (List Char)) : List (List Char) := pdf00 :: matched

/-- app.py line 59: "00.pdf" prepended to the matched documents that are
among the uploaded file names; passed to merge_all_pdfs (line 81). -/
def final_files (matched uploaded : List (List Char)) : List (List Char) :=
  pdf00 :: matched.filter fun f => containsEq f uploaded

/-- app.py line 43: the first stop condition, "No documents matched the
bidder name." -/
def stops_no_match (matched : List (List Char)) : Bool := matched.isEmpty

/-- app.py line 61: the second stop condition, "None of the matched files
were found in the uploaded documents." -/
def stops_none_uploaded (matched uploaded : List (List Char)) : Bool :=
  (final_files matched uploaded).isEmpty

/-- Assembly (TOC creation, merging, final combination, app.py lines 79-82)
runs iff neither stop condition fired. -/
def assembly_proceeds (matched uploaded : List (List Char)) : Bool :=
  !stops_no_match matched && !stops_none_uploaded matched uploaded

/-- app.py lines 66-67: after saving the uploads, the placeholder "00.pdf"
is (over)written with the single byte b" ".  fs maps a file name in the
input folder to its byte content. -/
def write00 (fs : List Char → Option (List Char)) : List Char → Option (List Char) :=
  fun name => if name = pdf00 then some [' '] else fs name

/-- Modelled from the spec: the external Page Reader (pypdf's PdfReader,
consumed by merge_utils.py but not part of src/).  A byte stream is only
readable as a PDF document when it carries the PDF header marker "%PDF-";
reading anything else fails, and per the spec such a failure is local
(logged and skipped), never fatal. -/
def pdf_header_ok (bs : List Char) : Bool := listStartsWith "%PDF-".toList bs

/-- Page-count view of a folder through an abstract content reader. -/
def read_pages_via {α : Type} (reader : List Char → Option (List α))
    (fs : List Char → Option (List Char)) (name : List Char) : Option Nat :=
  ((fs name).bind reader).map List.length

/-- Page-stream view of a folder through an abstract content reader. -/
def read_doc_via {α : Type} (reader : List Char → Option (List α))
    (fs : List Char → Option (List Char)) (name : List Char) : Option (List α) :=
  (fs name).bind reader

/-! ## Concrete inputs used by the claims -/

def acmeB : List Char := "ACME PAINTS-LUCKNOW".toList

/-- Bidder header, table header, and two rows carrying the same filename. -/
def textRowsDup : List Char :=
  "ACME PAINTS-LUCKNOW\nS.No File Name Context\n1 a.pdf context\n2 a.pdf context".toList

/-- Bidder header, table header, one row. -/
def textOneRow : List Char :=
  "ACME PAINTS-LUCKNOW\nS.No File Name Context\n1 a.pdf context".toList

/-- Bidder header, table header, then the same inline pdf mention twice on
non-row lines. -/
def textInlineDup : List Char :=
  "ACME PAINTS-LUCKNOW\nS.No File Name Context\ncontext a.pdf\ncontext a.pdf".toList

/-- Bidder header, then a line that is nothing but the keyword description,
then a numbered row. -/
def textKeywordLine : List Char :=
  "ACME PAINTS-LUCKNOW\ndescription\n1 a.pdf x".toList

/-- Bidder header followed by a prose line holding a pdf name; no table
header anywhere. -/
def textProse : List Char := "ACME PAINTS-LUCKNOW\nsee doc.pdf attached".toList

/-- The three-line end-to-end scenario of the spec. -/
def textC8 : List Char :=
  "ACME PAINTS-LUCKNOW\nS.No File Name Context\n1 tender.pdf general".toList

/-- Bidder header, then one line with two whitespace-delimited .pdf tokens. -/
def textTwoTokens : List Char := "ACME PAINTS-LUCKNOW\nx a.pdf b.pdf".toList

/-- Bidder header, then the same bare pdf name on two prose lines. -/
def textBareDup : List Char := "ACME PAINTS-LUCKNOW\na.pdf\na.pdf".toList

/-- a2 extends a1: every bidder's document list in a2 is the one in a1 with
some suffix appended. -/
def ExtendsA (a1 a2 : Assoc) : Prop :=
  ∀ b, ∃ t, docsOf a2 b = docsOf a1 b ++ t

/-! # Theorems -/

/-! ## Helper lemmas -/

theorem docsOf_appendDoc_self (acc : Assoc) (b fn : List Char) :
    docsOf (appendDoc acc b fn) b = docsOf acc b ++ [fn] := by
  induction acc with
  | nil => simp [appendDoc, docsOf, lookupA]
  | cons kv rest ih =>
    obtain ⟨k, v⟩ := kv
    by_cases hk : k = b
    · subst hk; simp [appendDoc, docsOf, lookupA]
    · simp only [appendDoc, if_neg hk, docsOf, lookupA]
      simpa [docsOf] using ih

theorem docsOf_appendDoc_other (acc : Assoc) (b fn b2 : List Char) (h : b2 ≠ b) :
    docsOf (appendDoc acc b fn) b2 = docsOf acc b2 := by
  induction acc with
  | nil =>
    have hbb : ¬b = b2 := fun hh => h hh.symm
    simp [appendDoc, docsOf, lookupA, if_neg hbb]
  | cons kv rest ih =>
    obtain ⟨k, v⟩ := kv
    by_cases hk : k = b
    · subst hk
      have hkb : ¬k = b2 := fun hh => h hh.symm
      simp [appendDoc, docsOf, lookupA, if_neg hkb]
    · by_cases h2 : k = b2
      · subst h2; simp [appendDoc, docsOf, lookupA, hk]
      · simp only [appendDoc, if_neg hk, docsOf, lookupA, if_neg h2]
        simpa [docsOf] using ih

theorem extendsA_refl (a : Assoc) : ExtendsA a a :=
  fun _ => ⟨[], by simp⟩

theorem extendsA_trans {a1 a2 a3 : Assoc} (h1 : ExtendsA a1 a2) (h2 : ExtendsA a2 a3) :
    ExtendsA a1 a3 := by
  intro b
  obtain ⟨t1, e1⟩ := h1 b
  obtain ⟨t2, e2⟩ := h2 b
  exact ⟨t1 ++ t2, by rw [e2, e1, List.append_assoc]⟩

theorem extendsA_appendDoc (acc : Assoc) (b fn : List Char) :
    ExtendsA acc (appendDoc acc b fn) := by
  intro b2
  by_cases h : b2 = b
  · subst h; exact ⟨[fn], docsOf_appendDoc_self acc b2 fn⟩
  · exact ⟨[], by rw [docsOf_appendDoc_other acc b fn b2 h, List.append_nil]⟩

theorem extendsA_rowProcess (acc : Assoc) (b : List Char) (parts : List (List Char)) :
    ExtendsA acc (rowProcess acc b parts) := by
  unfold rowProcess
  split
  · split
    · exact extendsA_appendDoc acc b _
    · split
      · exact extendsA_appendDoc acc b _
      · exact extendsA_refl acc
  · exact extendsA_refl acc

theorem extendsA_parseStep (curB : Option (List Char)) (inTab : Bool) (acc : Assoc)
    (l0 : List Char) (rest : List (List Char)) :
    ExtendsA acc (parseStep curB inTab acc l0 rest).2.2 := by
  unfold parseStep
  dsimp only
  repeat' split
  all_goals
    first
      | exact extendsA_refl acc
      | exact extendsA_rowProcess acc _ _
      | exact extendsA_appendDoc acc _ _

theorem extendsA_parseLoop (lines : List (List Char)) :
    ∀ curB inTab acc, ExtendsA acc (parseLoop curB inTab acc lines) := by
  induction lines with
  | nil => intro curB inTab acc; exact extendsA_refl acc
  | cons l0 rest ih =>
    intro curB inTab acc
    have h1 := extendsA_parseStep curB inTab acc l0 rest
    have h2 := ih (parseStep curB inTab acc l0 rest).1
      (parseStep curB inTab acc l0 rest).2.1 (parseStep curB inTab acc l0 rest).2.2
    exact extendsA_trans h1 h2

theorem get_pdf_info_go_contig (read : List Char → Option Nat) :
    ∀ (files : List (List Char)) (n : Int),
      contiguousFromB n (get_pdf_info_go read n files) = true := by
  intro files
  induction files with
  | nil => intro n; rfl
  | cons f rest ih =>
    intro n
    cases h : read f with
    | none => simp only [get_pdf_info_go, h]; exact ih n
    | some pc =>
      have e1 : n + (pc : Int) - 1 + 1 = n + pc := by ring
      simp only [get_pdf_info_go, h, contiguousFromB]
      simp [e1, ih (n + pc)]

theorem get_pdf_info_go_files (read : List Char → Option Nat) :
    ∀ (files : List (List Char)) (n : Int),
      (get_pdf_info_go read n files).map PdfEntry.filename =
        files.filter fun f => (read f).isSome := by
  intro files
  induction files with
  | nil => intro n; rfl
  | cons f rest ih =>
    intro n
    cases h : read f with
    | none => simp [get_pdf_info_go, h, List.filter_cons, ih n]
    | some pc => simp [get_pdf_info_go, h, List.filter_cons, ih (n + pc)]

theorem containsEq_filter_false (x : List Char) (p : List Char → Bool) (hp : p x = false) :
    ∀ l : List (List Char), containsEq x (l.filter p) = false := by
  intro l
  induction l with
  | nil => rfl
  | cons y ys ih =>
    by_cases hy : p y
    · rw [List.filter_cons_of_pos hy]
      simp only [containsEq]
      have hxy : ¬y = x := by
        intro hh
        rw [hh, hp] at hy
        exact Bool.false_ne_true hy
      rw [if_neg hxy]
      exact ih
    · rw [List.filter_cons_of_neg (by simpa using hy)]
      exact ih

/-! ## Claim theorems -/

/-- Claim C1, counterexample: in textRowsDup the filename a.pdf stands in two
numbered table rows under the same bidder header, yet the parser's output
list for that bidder holds it twice, not exactly once. -/
theorem c1_dedup_counterexample :
    countEq "a.pdf".toList (docsOf (parse_bidder_documents [] textRowsDup) acmeB) = 2 := by
  decide

/-- Claim C1 (amended): a filename recovered from a numbered table row is
appended to the current bidder's list with no membership test, so a filename
appearing in two rows appears twice, in row order; only the inline pdf scan
of non-row lines deduplicates. -/
theorem c1_dedup_amended :
    (∀ (acc : Assoc) (b n p1 : List Char) (r : List (List Char)),
      validDoc p1 = true →
        docsOf (rowProcess acc b (n :: p1 :: r)) b = docsOf acc b ++ [p1]) ∧
    parse_bidder_documents [] textRowsDup = [(acmeB, ["a.pdf".toList, "a.pdf".toList])] ∧
    parse_bidder_documents [] textInlineDup = [(acmeB, ["a.pdf".toList])] := by
  refine ⟨?_, by decide, by decide⟩
  intro acc b n p1 r h
  simp only [rowProcess, if_pos h]
  exact docsOf_appendDoc_self acc b p1

/-- Witness for C1: the row branch appends a.pdf even to the empty state. -/
theorem c1_dedup_amended_witness :
    validDoc "a.pdf".toList = true ∧
    docsOf (rowProcess [] acmeB ["1".toList, "a.pdf".toList]) acmeB =
      docsOf ([] : Assoc) acmeB ++ ["a.pdf".toList] :=
  ⟨by decide, c1_dedup_amended.1 [] acmeB "1".toList "a.pdf".toList [] (by decide)⟩

/-- Claim C2, counterexample: the non-blank line "description" contains the
keyword description in its lowercase form while a bidder is current, yet the
scan step leaves in_table_section false, and the subsequent row is never
associated. -/
theorem c2_table_header_counterexample :
    containsSub "description".toList (lowerL (strip "description".toList)) = true ∧
    (parseStep (some acmeB) false [] "description".toList ["1 a.pdf x".toList]).2.1 = false ∧
    parse_bidder_documents [] textKeywordLine = [] := by
  refine ⟨by decide, by decide, by decide⟩

/-- Claim C2 (amended): the table-header transition fires only when the line
contains 'File Name' or 'S.' case-sensitively and the next line's stripped
form contains 'No.' or its lowercase form contains context, description or
placed; then in_table_section is set and the line is consumed without being
treated as a document row. -/
theorem c2_table_header_amended :
    ∀ (b : List Char) (inTab : Bool) (acc : Assoc) (l0 : List Char)
      (rest : List (List Char)),
      strip l0 ≠ [] → isBidderHeader (strip l0) = false →
      tableHeaderCue (strip l0) = true → headerNext rest = true →
      parseStep (some b) inTab acc l0 rest = (some b, true, acc) := by
  intro b inTab acc l0 rest h1 h2 h3 h4
  have h1' : (strip l0).isEmpty = false := by
    cases hs : strip l0 with
    | nil => exact absurd hs h1
    | cons c cs => rfl
  unfold parseStep
  dsimp only
  simp [h1', h2, h3, h4]

/-- Witness for C2: the table header of the end-to-end text triggers the
transition when its next line carries the keyword context. -/
theorem c2_table_header_amended_witness :
    (strip "S.No File Name Context".toList ≠ [] ∧
      isBidderHeader (strip "S.No File Name Context".toList) = false ∧
      tableHeaderCue (strip "S.No File Name Context".toList) = true ∧
      headerNext ["1 a.pdf context".toList] = true) ∧
    parseStep (some acmeB) false [] "S.No File Name Context".toList
      ["1 a.pdf context".toList] = (some acmeB, true, []) :=
  ⟨⟨by decide, by decide, by decide, by decide⟩,
    c2_table_header_amended acmeB false [] "S.No File Name Context".toList
      ["1 a.pdf context".toList] (by decide) (by decide) (by decide) (by decide)⟩

/-- Claim C3, counterexample: against the association with one bidder whose
list is empty, resolving that bidder (found, zero documents) and resolving
ZZZZ (no exact key, no substring match) both return [], so the not-found
signal is not distinct. -/
theorem c3_not_found_counterexample :
    resolveDocs [(acmeB, [])] acmeB = [] ∧
    lookupA [(acmeB, [])] "ZZZZ".toList = none ∧
    List.find? (fun kv => containsSub (lowerL "ZZZZ".toList) (lowerL kv.1))
      ([(acmeB, [])] : Assoc) = none ∧
    resolveDocs [(acmeB, [])] "ZZZZ".toList = [] := by
  refine ⟨by decide, by decide, by decide, by decide⟩

/-- Claim C3 (amended): when neither an exact key match nor a
case-insensitive substring match exists, the resolver returns the empty
list, the same value it returns for a successfully matched bidder whose
document list is empty, so the two outcomes are not distinguishable from
the result. -/
theorem c3_not_found_amended :
    (∀ (acc : Assoc) (name : List Char),
      lookupA acc name = none →
      acc.find? (fun kv => containsSub (lowerL name) (lowerL kv.1)) = none →
      resolveDocs acc name = []) ∧
    resolveDocs [(acmeB, [])] acmeB = [] := by
  refine ⟨?_, by decide⟩
  intro acc name h1 h2
  simp [resolveDocs, h1, h2]

/-- Witness for C3: a concrete name with no exact and no substring match
resolves to the empty list. -/
theorem c3_not_found_amended_witness :
    (lookupA [(acmeB, ["x.pdf".toList])] "QQQ".toList = none ∧
      List.find? (fun kv => containsSub (lowerL "QQQ".toList) (lowerL kv.1))
        [(acmeB, ["x.pdf".toList])] = none) ∧
    resolveDocs [(acmeB, ["x.pdf".toList])] "QQQ".toList = [] :=
  ⟨⟨by decide, by decide⟩,
    c3_not_found_amended.1 [(acmeB, ["x.pdf".toList])] "QQQ".toList (by decide) (by decide)⟩

/-- Claim C4 (code bug): final_files always contains the placeholder 00.pdf,
so the guard that should abort when no matched file was uploaded can never
fire; with matched = [x.pdf] and uploads = [y.pdf] (empty intersection) the
handler still proceeds to assembly with only the placeholder. -/
theorem c4_dead_guard_thm :
    (∀ matched uploaded : List (List Char), stops_none_uploaded matched uploaded = false) ∧
    final_files ["x.pdf".toList] ["y.pdf".toList] = [pdf00] ∧
    assembly_proceeds ["x.pdf".toList] ["y.pdf".toList] = true := by
  refine ⟨fun m u => rfl, by decide, by decide⟩

/-- Claim C5, counterexample: running the parse pass a second time on the
same instance state over the same text does not reproduce the first result. -/
theorem c5_idempotence_counterexample :
    parse_bidder_documents (parse_bidder_documents [] textOneRow) textOneRow ≠
      parse_bidder_documents [] textOneRow := by
  decide

/-- Claim C5 (amended): the parse pass accumulates into the instance's
persisted mapping rather than rebuilding it: every prior list survives as a
prefix, and a second run over textOneRow re-appends the row filename, so the
two runs differ. -/
theorem c5_state_accumulates_thm :
    (∀ (init : Assoc) (raw : List Char) (b : List Char),
      ∃ t, docsOf (parse_bidder_documents init raw) b = docsOf init b ++ t) ∧
    parse_bidder_documents (parse_bidder_documents [] textOneRow) textOneRow =
      [(acmeB, ["a.pdf".toList, "a.pdf".toList])] := by
  refine ⟨?_, by decide⟩
  intro init raw b
  exact extendsA_parseLoop (splitNl raw) none false init b

/-- Claim C6, counterexample: in textProse a bidder header is followed by a
prose line carrying doc.pdf (which the pdf scan would find) and no table
header, yet the parser associates nothing at all. -/
theorem c6_lookahead_counterexample :
    pdfSearch (strip "see doc.pdf attached".toList) = some "doc.pdf".toList ∧
    parse_bidder_documents [] textProse = [] := by
  refine ⟨by decide, by decide⟩

/-- Claim C6 (amended): parse_bidder_documents has no fallback look-ahead at
all: while in_table_section is false, a scan step never changes the
association, so filenames after a bidder header with no table header are
never associated by the primary parser. -/
theorem c6_no_fallback_thm :
    (∀ (curB : Option (List Char)) (acc : Assoc) (l0 : List Char)
      (rest : List (List Char)), (parseStep curB false acc l0 rest).2.2 = acc) ∧
    parse_bidder_documents [] textProse = [] := by
  refine ⟨?_, by decide⟩
  intro curB acc l0 rest
  unfold parseStep
  dsimp only
  repeat' split
  all_goals first
    | rfl
    | (exfalso; simp_all)

/-- Claim C7: the merge plan consists exactly of the files the reader could
open, in order, and its page ranges are contiguous: the first entry starts
at page 1, each entry ends at start + count - 1, and each next entry starts
right after the previous one. -/
theorem c7_merge_plan_thm (read : List Char → Option Nat) (files : List (List Char)) :
    contiguousFromB 1 (get_pdf_info read files) = true ∧
    (get_pdf_info read files).map PdfEntry.filename =
      files.filter fun f => (read f).isSome :=
  ⟨get_pdf_info_go_contig read files 1, get_pdf_info_go_files read files 1⟩

/-- Claim C8: on the three-line brief note, requesting the documents of
ACME PAINTS-LUCKNOW returns exactly [tender.pdf] (via the alternative
parser, the primary parse being empty). -/
theorem c8_end_to_end_thm :
    get_documents_for_bidder textC8 acmeB = ["tender.pdf".toList] := by
  decide

/-- Claim C9, counterexample: on textTwoTokens the line carries the two
whitespace-delimited .pdf tokens a.pdf and b.pdf, yet the fallback path
associates only the first pdf match of the line, so b.pdf is missing. -/
theorem c9_alt_counterexample :
    get_documents_for_bidder textTwoTokens acmeB = ["a.pdf".toList] ∧
    containsEq "b.pdf".toList (splitWs "x a.pdf b.pdf".toList) = true ∧
    containsEq "b.pdf".toList (get_documents_for_bidder textTwoTokens acmeB) = false := by
  refine ⟨by decide, by decide, by decide⟩

/-- Claim C9 (amended): when the primary parse yields an empty association,
get_documents_for_bidder silently resolves against the alternative parse,
which associates, per line, the first non-whitespace run ending in .pdf with
the most recently mentioned bidder label, with no table gating and no
deduplication — textBareDup yields a duplicated, out-of-table list. -/
theorem c9_alt_amended :
    (∀ (raw name : List Char),
      parse_bidder_documents [] raw = [] →
        get_documents_for_bidder raw name =
          resolveDocs (parse_bidder_documents_alternative raw) name) ∧
    get_documents_for_bidder textBareDup acmeB = ["a.pdf".toList, "a.pdf".toList] := by
  refine ⟨?_, by decide⟩
  intro raw name h
  simp [get_documents_for_bidder, h]

/-- Witness for C9: the fallback resolution on textBareDup. -/
theorem c9_alt_amended_witness :
    parse_bidder_documents [] textBareDup = [] ∧
    get_documents_for_bidder textBareDup acmeB =
      resolveDocs (parse_bidder_documents_alternative textBareDup) acmeB :=
  ⟨by decide, c9_alt_amended.1 textBareDup acmeB (by decide)⟩

/-- Claim C10: the handler writes 00.pdf as the single byte b" ", which no
PDF reader accepts, so for every conforming reader the merge plan built from
bidder_file_name carries no 00.pdf entry, the merged stream over final_files
equals the stream over the real resolved documents alone, and the final
document is the TOC pages followed directly by that stream. -/
theorem c10_cover_skip_thm {α : Type} (reader : List Char → Option (List α))
    (fs : List Char → Option (List Char)) (matched uploaded : List (List Char))
    (toc : List α)
    (hr : ∀ bs, pdf_header_ok bs = false → reader bs = none) :
    containsEq pdf00
      ((get_pdf_info (read_pages_via reader (write00 fs)) (bidder_file_name matched)).map
        PdfEntry.filename) = false ∧
    merge_all_pdfs (read_doc_via reader (write00 fs)) (final_files matched uploaded) =
      merge_all_pdfs (read_doc_via reader (write00 fs))
        (matched.filter fun f => containsEq f uploaded) ∧
    combine_toc_and_merged toc
        (merge_all_pdfs (read_doc_via reader (write00 fs)) (final_files matched uploaded)) =
      toc ++ merge_all_pdfs (read_doc_via reader (write00 fs))
        (matched.filter fun f => containsEq f uploaded) := by
  have h00c : write00 fs pdf00 = some [' '] := by simp [write00]
  have h00 : reader [' '] = none := hr [' '] (by decide)
  have hp : read_pages_via reader (write00 fs) pdf00 = none := by
    simp [read_pages_via, h00c, h00]
  have hd : read_doc_via reader (write00 fs) pdf00 = none := by
    simp [read_doc_via, h00c, h00]
  have hm : merge_all_pdfs (read_doc_via reader (write00 fs)) (final_files matched uploaded) =
      merge_all_pdfs (read_doc_via reader (write00 fs))
        (matched.filter fun f => containsEq f uploaded) := by
    simp [final_files, merge_all_pdfs, hd]
  refine ⟨?_, hm, ?_⟩
  · rw [get_pdf_info, get_pdf_info_go_files]
    exact containsEq_filter_false pdf00 _ (by simp [hp]) (bidder_file_name matched)
  · rw [combine_toc_and_merged, hm]

/-- Witness for C10: a reader that demands the PDF header marker skips the
placeholder, leaving a plan without any 00.pdf entry. -/
theorem c10_cover_skip_witness :
    containsEq pdf00
      ((get_pdf_info
          (read_pages_via (fun bs => if pdf_header_ok bs then some [0] else none)
            (write00 fun n => if n = "a.pdf".toList then some "%PDF-x".toList else none))
          (bidder_file_name ["a.pdf".toList])).map PdfEntry.filename) = false :=
  (c10_cover_skip_thm (α := Nat)
    (fun bs => if pdf_header_ok bs then some [0] else none)
    (fun n => if n = "a.pdf".toList then some "%PDF-x".toList else none)
    ["a.pdf".toList] ["a.pdf".toList] []
    (by intro bs hb; simp [hb])).1
